import Mathlib

/-!
Verification development for the rkvdec2 video decoder driver core
(drivers/media/platform/rockchip/rkvdec2/rkvdec2.c).

The driver's pure control logic is shallowly embedded: static format
tables become Lean lists, the per-session context becomes a structure,
and the stateful allocation / release routines become functions that
thread an explicit memory-ledger state (multisets of live on-chip-pool
allocations, live system-memory allocations and installed translation
mappings) together with a trace of the external allocator calls they
perform.  External collaborators (the generic pool allocator, the DMA
allocator, the IOMMU, the per-codec operation hooks and the V4L2 layout
helpers) are kept abstract as oracle parameters; where their behaviour
is needed it is modelled from the specification and marked as such.
C `u32` arithmetic is embedded as `Nat` arithmetic reduced mod 2^32.
-/

namespace Rkvdec2

/-- C `u32` wrap-around: reduce mod 2^32. -/
def w32 (x : Nat) : Nat := x % 4294967296

/-- ALIGN(x, 0x1000): round a `size_t` up to the next multiple of 4096. -/
def align4096 (x : Nat) : Nat := ((x + 4095) / 4096) * 4096

/-- fourcc of V4L2_PIX_FMT_NV12. -/
def V4L2_PIX_FMT_NV12 : Nat := 0x3231564E

/-- fourcc of V4L2_PIX_FMT_NV15. -/
def V4L2_PIX_FMT_NV15 : Nat := 0x3531564E

/-- fourcc of V4L2_PIX_FMT_NV16. -/
def V4L2_PIX_FMT_NV16 : Nat := 0x3631564E

/-- fourcc of V4L2_PIX_FMT_NV20. -/
def V4L2_PIX_FMT_NV20 : Nat := 0x3032564E

/-- fourcc of V4L2_PIX_FMT_H264_SLICE. -/
def V4L2_PIX_FMT_H264_SLICE : Nat := 0x34363253

/-- V4L2_FIELD_NONE. -/
def V4L2_FIELD_NONE : Nat := 1

/-- V4L2_COLORSPACE_REC709. -/
def V4L2_COLORSPACE_REC709 : Nat := 3

/-- V4L2_YCBCR_ENC_DEFAULT / V4L2_QUANTIZATION_DEFAULT / V4L2_XFER_FUNC_DEFAULT. -/
def V4L2_DEFAULT0 : Nat := 0

/-- V4L2_FRMSIZE_TYPE_CONTINUOUS. -/
def V4L2_FRMSIZE_TYPE_CONTINUOUS : Nat := 2

/-- errno EBUSY. -/
def EBUSY : Int := 16

/-- errno EINVAL. -/
def EINVAL : Int := 22

/-- errno ENOMEM. -/
def ENOMEM : Int := 12

/-- Modelled from the spec: `enum rkvdec2_image_fmt` (declared in the
driver header, which is not part of the tree): the abstract image kinds
8-bit 4:2:0, 10-bit 4:2:0, 8-bit 4:2:2, 10-bit 4:2:2 and the wildcard
`RKVDEC2_IMG_FMT_ANY`. -/
inductive ImageFmt where
  | any
  | f420_8bit
  | f420_10bit
  | f422_8bit
  | f422_10bit
deriving DecidableEq, Repr

/-- rkvdec2_image_fmt_match: two image kinds match if they are equal or
either one is the wildcard. -/
def rkvdec2_image_fmt_match (fmt1 fmt2 : ImageFmt) : Bool :=
  fmt1 == fmt2 || fmt2 == ImageFmt.any || fmt1 == ImageFmt.any

/-- struct rkvdec2_decoded_fmt_desc: a decoded pixel format together
with its image kind tag. -/
structure DecodedFmtDesc where
  fourcc : Nat
  image_fmt : ImageFmt
deriving DecidableEq, Repr

/-- struct v4l2_frmsize_stepwise: the frame-size envelope of a coded
format. -/
structure FrmSize where
  min_width : Nat
  max_width : Nat
  step_width : Nat
  min_height : Nat
  max_height : Nat
  step_height : Nat
deriving DecidableEq, Repr

/-- struct rkvdec2_coded_fmt_desc (the fields the control logic reads:
fourcc, frame-size envelope and decoded-format table; the per-codec
operation hooks are passed separately as oracles). -/
structure CodedFmtDesc where
  fourcc : Nat
  frmsize : FrmSize
  decoded_fmts : List DecodedFmtDesc
deriving DecidableEq, Repr

/-- rkvdec2_h264_decoded_fmts: the static decoded-format table of the
H.264 coded format. -/
def rkvdec2_h264_decoded_fmts : List DecodedFmtDesc :=
  [⟨V4L2_PIX_FMT_NV12, ImageFmt.f420_8bit⟩,
   ⟨V4L2_PIX_FMT_NV15, ImageFmt.f420_10bit⟩,
   ⟨V4L2_PIX_FMT_NV16, ImageFmt.f422_8bit⟩,
   ⟨V4L2_PIX_FMT_NV20, ImageFmt.f422_10bit⟩]

/-- rkvdec2_coded_fmts: the static coded-format registry (one entry,
H.264 slice). -/
def rkvdec2_coded_fmts : List CodedFmtDesc :=
  [⟨V4L2_PIX_FMT_H264_SLICE,
    ⟨64, 65520, 64, 16, 65520, 16⟩,
    rkvdec2_h264_decoded_fmts⟩]

/-- Loop body of rkvdec2_enum_decoded_fmt: walk the decoded-format table
carrying the running index `fmt_idx` of the last match (C starts it at
-1 and increments it before each comparison with `index`). -/
def enumDecodedFmtAux (index : Int) (flt : ImageFmt) :
    List DecodedFmtDesc → Int → Nat
  | [], _ => 0
  | d :: rest, fmt_idx =>
    if rkvdec2_image_fmt_match d.image_fmt flt then
      if index = fmt_idx + 1 then d.fourcc
      else enumDecodedFmtAux index flt rest (fmt_idx + 1)
    else enumDecodedFmtAux index flt rest fmt_idx

/-- rkvdec2_enum_decoded_fmt: fourcc of the index-th decoded format of
`desc` matching the image-kind filter, or 0 when there is none.  The C
function takes the ctx only to read its coded-format descriptor (and
returns 0 when that is NULL); the descriptor is passed directly here. -/
def rkvdec2_enum_decoded_fmt (desc : CodedFmtDesc) (index : Int)
    (flt : ImageFmt) : Nat :=
  enumDecodedFmtAux index flt desc.decoded_fmts (-1)

/-- rkvdec2_is_valid_fmt: whether `fourcc` appears in the descriptor's
decoded-format table with an image kind matching `flt`. -/
def rkvdec2_is_valid_fmt (desc : CodedFmtDesc) (fourcc : Nat)
    (flt : ImageFmt) : Bool :=
  desc.decoded_fmts.any fun d =>
    rkvdec2_image_fmt_match d.image_fmt flt && d.fourcc == fourcc

/-- rkvdec2_find_coded_fmt_desc: look a coded format up by fourcc. -/
def rkvdec2_find_coded_fmt_desc (fourcc : Nat) : Option CodedFmtDesc :=
  rkvdec2_coded_fmts.find? fun d => d.fourcc == fourcc

/-- struct v4l2_pix_format_mplane, restricted to the fields the driver
control logic reads or writes; `plane0_sizeimage` is
plane_fmt[0].sizeimage. -/
structure PixMp where
  pixelformat : Nat
  width : Nat
  height : Nat
  num_planes : Nat
  plane0_sizeimage : Nat
  fieldv : Nat
  colorspace : Nat
  xfer_func : Nat
  ycbcr_enc : Nat
  quantization : Nat
deriving DecidableEq, Repr

/-- The all-zero v4l2 format value produced by memset in
rkvdec2_reset_fmt. -/
def zeroPixMp : PixMp := ⟨0, 0, 0, 0, 0, 0, 0, 0, 0, 0⟩

/-- Output of the external helper `v4l2_fill_pixfmt_mp` (V4L2 core, not
part of this repository): the base plane layout it computes for a
(pixelformat, width, height) triple.  It is kept abstract as an oracle;
the helper leaves pixelformat, width and height unchanged, which the
embedding reflects by not letting it touch those fields. -/
structure FillResult where
  num_planes : Nat
  sizeimage0 : Nat
deriving DecidableEq, Repr

/-- Shape of the base-layout oracle standing for `v4l2_fill_pixfmt_mp`. -/
def FillOracle : Type := Nat → Nat → Nat → FillResult

/-- rkvdec2_fill_decoded_pixfmt: apply the base layout helper, then grow
plane 0 by the per-macroblock auxiliary area, 128 bytes per 16 x 16
block with both dimensions rounded up (all in u32 arithmetic).  Returns
the updated format together with `colmv_offset` (the base size). -/
def rkvdec2_fill_decoded_pixfmt (fill : FillOracle) (pix : PixMp) :
    PixMp × Nat :=
  let base := fill pix.pixelformat pix.width pix.height
  let colmv_offset := base.sizeimage0
  let aux := w32 (w32 (128 * (w32 (pix.width + 15) / 16)) *
                  (w32 (pix.height + 15) / 16))
  ({ pix with
      num_planes := base.num_planes
      plane0_sizeimage := w32 (base.sizeimage0 + aux) },
   colmv_offset)

/-- rkvdec2_reset_fmt: zero the format, then set the fourcc and the
default colorimetry. -/
def rkvdec2_reset_fmt (fourcc : Nat) : PixMp :=
  { zeroPixMp with
      pixelformat := fourcc
      fieldv := V4L2_FIELD_NONE
      colorspace := V4L2_COLORSPACE_REC709
      ycbcr_enc := V4L2_DEFAULT0
      quantization := V4L2_DEFAULT0
      xfer_func := V4L2_DEFAULT0 }

/-- RKVDEC2_RCB_COUNT: number of scratch-buffer (RCB) kinds. -/
def RKVDEC2_RCB_COUNT : Nat := 10

/-- enum rcb_axis. -/
inductive RcbAxis where
  | picWidth
  | picHeight
deriving DecidableEq, Repr

/-- struct rcb_size_info. -/
structure RcbSizeInfo where
  multiplier : Nat
  axis : RcbAxis
deriving DecidableEq, Repr

/-- rcb_sizes: the static per-kind size table (intrar, transdr, transdc,
streamdr, interr, interc, dblkr, saor, fbcr, filtc col). -/
def rcb_sizes : List RcbSizeInfo :=
  [⟨6, RcbAxis.picWidth⟩,
   ⟨1, RcbAxis.picWidth⟩,
   ⟨1, RcbAxis.picHeight⟩,
   ⟨3, RcbAxis.picWidth⟩,
   ⟨6, RcbAxis.picWidth⟩,
   ⟨3, RcbAxis.picHeight⟩,
   ⟨22, RcbAxis.picWidth⟩,
   ⟨6, RcbAxis.picWidth⟩,
   ⟨11, RcbAxis.picWidth⟩,
   ⟨67, RcbAxis.picHeight⟩]

/-- Table entry for kind `n` (kind indices used by the driver are
0..RKVDEC2_RCB_COUNT-1). -/
def rcbInfo (n : Nat) : RcbSizeInfo := rcb_sizes.getD n ⟨0, RcbAxis.picWidth⟩

/-- RCB_SIZE(n, w, h): the raw formula size of scratch-buffer kind `n`
(u32 arithmetic). -/
def RCB_SIZE (n w h : Nat) : Nat :=
  w32 ((rcbInfo n).multiplier *
    (match (rcbInfo n).axis with
     | RcbAxis.picHeight => h
     | RcbAxis.picWidth => w))

/-- enum rkvdec2_alloc_type. -/
inductive AllocType where
  | sram
  | dma
deriving DecidableEq, Repr

/-- struct rkvdec2_aux_buf: one scratch-buffer record.  `cpu` is the
host address (`none` embeds NULL); `zeroed` records that the backing
memory was zero-initialized by the allocator that produced it. -/
structure RcbBuf where
  cpu : Option Nat
  dma : Nat
  size : Nat
  type : AllocType
  zeroed : Bool
deriving DecidableEq, Repr

/-- The all-zero record that memset produces. -/
def zeroBuf : RcbBuf := ⟨none, 0, 0, AllocType.sram, false⟩

/-- struct rkvdec2_ctx, restricted to the fields of the control path. -/
structure Ctx where
  coded_fmt_desc : CodedFmtDesc
  coded_fmt : PixMp
  decoded_fmt : PixMp
  image_fmt : ImageFmt
  colmv_offset : Nat
  rcb_bufs : List RcbBuf
deriving DecidableEq, Repr

/-- rkvdec2_reset_decoded_fmt: pick the first decoded format compatible
with the current image kind, copy geometry from the coded format and
compute the plane layout plus auxiliary area. -/
def rkvdec2_reset_decoded_fmt (fill : FillOracle) (ctx : Ctx) : Ctx :=
  let fourcc := rkvdec2_enum_decoded_fmt ctx.coded_fmt_desc 0 ctx.image_fmt
  let f := rkvdec2_reset_fmt fourcc
  let f := { f with
      width := ctx.coded_fmt.width
      height := ctx.coded_fmt.height }
  let (f, colmv) := rkvdec2_fill_decoded_pixfmt fill f
  { ctx with decoded_fmt := f, colmv_offset := colmv }

/-- Ledger of the externally owned memory resources the driver holds:
multisets of (address, size) pairs for live on-chip-pool (SRAM)
allocations, live coherent system-memory allocations, and installed
IOMMU translation mappings. -/
structure MemState where
  poolLive : Multiset (Nat × Nat)
  dmaLive : Multiset (Nat × Nat)
  mapped : Multiset (Nat × Nat)
deriving DecidableEq

/-- Trace of calls the allocator / release code makes into the external
memory collaborators. -/
inductive Event where
  | poolAllocReq (kind size : Nat)
  | poolRelease (addr size : Nat)
  | mapReq (kind virt size : Nat)
  | unmapReq (virt size : Nat)
  | dmaAllocReq (kind size : Nat)
  | dmaRelease (addr size : Nat)
deriving DecidableEq, Repr

/-- Device configuration and allocation outcomes seen by one call of the
allocator.  `sram_pool` / `iommu_domain` embed the nullability of the
device's pool and IOMMU domain pointers.  `poolAlloc kind size` is the
outcome of `gen_pool_dma_zalloc_align` for that kind (cpu and dma
address on success), `iommuMapOk kind` the outcome of `iommu_map`, and
`dmaAlloc kind size` the outcome of `dma_alloc_coherent`.  Modelled
from the spec: both allocators hand out zero-initialized memory, which
the records produced below register in their `zeroed` field. -/
structure AllocOracle where
  sram_pool : Bool
  iommu_domain : Bool
  poolAlloc : Nat → Nat → Option (Nat × Nat)
  iommuMapOk : Nat → Bool
  dmaAlloc : Nat → Nat → Option (Nat × Nat)

/-- System-memory fallback tail of the per-kind allocation: recompute
the un-rounded formula size and call `dma_alloc_coherent`. -/
def ramFallback (o : AllocOracle) (st : MemState) (raw i : Nat)
    (evs : List Event) : MemState × Option RcbBuf × List Event :=
  match o.dmaAlloc i raw with
  | some (c, d) =>
    ({ st with dmaLive := (c, raw) ::ₘ st.dmaLive },
     some ⟨some c, d, raw, AllocType.dma, true⟩,
     evs ++ [Event.dmaAllocReq i raw])
  | none => (st, none, evs ++ [Event.dmaAllocReq i raw])

/-- One iteration of the rkvdec2_allocate_rcb loop for kind `i`: try the
SRAM pool (rounding the size up to 4096 when an IOMMU is used), then
install the translation mapping (releasing the pool allocation and
falling back to system memory if mapping fails), else fall back to
system memory directly.  Returns the updated ledger, the record built
for this kind (`none` embeds the `!cpu` out-of-memory exit) and the
trace of external calls. -/
def allocStep (o : AllocOracle) (st : MemState) (w h i : Nat) :
    MemState × Option RcbBuf × List Event :=
  let raw := RCB_SIZE i w h
  if o.sram_pool then
    let psize := if o.iommu_domain then align4096 raw else raw
    match o.poolAlloc i psize with
    | some (c, _d) =>
      let st1 := { st with poolLive := (c, psize) ::ₘ st.poolLive }
      if o.iommu_domain then
        if o.iommuMapOk i then
          ({ st1 with mapped := (c, psize) ::ₘ st1.mapped },
           some ⟨some c, c, psize, AllocType.sram, true⟩,
           [Event.poolAllocReq i psize, Event.mapReq i c psize])
        else
          let st2 := { st1 with poolLive := st1.poolLive.erase (c, psize) }
          ramFallback o st2 raw i
            [Event.poolAllocReq i psize, Event.mapReq i c psize,
             Event.poolRelease c psize]
      else
        (st1, some ⟨some c, _d, psize, AllocType.sram, true⟩,
         [Event.poolAllocReq i psize])
    | none => ramFallback o st raw i [Event.poolAllocReq i psize]
  else
    ramFallback o st raw i []

/-- The kind-indexed loop of rkvdec2_allocate_rcb: on success of a kind,
store its record at index `i` of the session's record array and
continue; abort on the first failure (the Bool result is `false` then). -/
def allocGo (o : AllocOracle) (w h : Nat) :
    List Nat → MemState → List RcbBuf → List Event →
    MemState × List RcbBuf × Bool × List Event
  | [], st, bufs, evs => (st, bufs, true, evs)
  | i :: rest, st, bufs, evs =>
    match allocStep o st w h i with
    | (st', some buf, evs') =>
      allocGo o w h rest st' (bufs.set i buf) (evs ++ evs')
    | (st', none, evs') => (st', bufs, false, evs ++ evs')

/-- One record's step of rkvdec2_free_rcb: records with a NULL host
address are skipped; SRAM records are unmapped (a no-op on the mapping
ledger when the device has no IOMMU domain) and returned to the pool;
system-memory records are freed coherently.  The record itself is not
written back. -/
def freeFold (dom : Bool) : MemState → List RcbBuf → MemState × List Event
  | st, [] => (st, [])
  | st, b :: rest =>
    match b.cpu with
    | none => freeFold dom st rest
    | some c =>
      match b.type with
      | AllocType.sram =>
        let st2 : MemState :=
          ⟨st.poolLive.erase (c, b.size), st.dmaLive,
           if dom then st.mapped.erase (c, b.size) else st.mapped⟩
        let r := freeFold dom st2 rest
        (r.1, Event.unmapReq c b.size :: Event.poolRelease c b.size :: r.2)
      | AllocType.dma =>
        let st2 : MemState :=
          ⟨st.poolLive, st.dmaLive.erase (c, b.size), st.mapped⟩
        let r := freeFold dom st2 rest
        (r.1, Event.dmaRelease c b.size :: r.2)

/-- rkvdec2_free_rcb: release every record with a non-NULL host address
via its recorded strategy.  The C function reads but never writes
ctx->rcb_bufs, so the context comes back unchanged. -/
def rkvdec2_free_rcb (dom : Bool) (st : MemState) (ctx : Ctx) :
    MemState × Ctx × List Event :=
  ((freeFold dom st ctx.rcb_bufs).1, ctx, (freeFold dom st ctx.rcb_bufs).2)

/-- rkvdec2_allocate_rcb: memset of `sizeof(*ctx->rcb_bufs)` bytes
clears exactly one array element (record 0), then each of the 10 kinds
is allocated in turn; the first failure rolls back through
rkvdec2_free_rcb and returns -ENOMEM. -/
def rkvdec2_allocate_rcb (o : AllocOracle) (st : MemState) (ctx : Ctx) :
    Int × MemState × Ctx × List Event :=
  let bufs0 := ctx.rcb_bufs.set 0 zeroBuf
  let w := ctx.decoded_fmt.width
  let h := ctx.decoded_fmt.height
  match allocGo o w h (List.range RKVDEC2_RCB_COUNT) st bufs0 [] with
  | (st', bufs', true, evs) => (0, st', { ctx with rcb_bufs := bufs' }, evs)
  | (st', bufs', false, evs) =>
    let ctx' := { ctx with rcb_bufs := bufs' }
    let r := rkvdec2_free_rcb o.iommu_domain st' ctx'
    (-ENOMEM, r.1, ctx', evs ++ r.2.2)

/-- Busy / streaming state of the session's two queues as reported by
the external buffer-queue collaborator (vb2_is_streaming / vb2_is_busy). -/
structure QueueFlags where
  out_streaming : Bool
  out_busy : Bool
  cap_busy : Bool
deriving DecidableEq, Repr

/-- Modelled from the spec: `v4l2_apply_frmsize_constraints` (V4L2 core,
not part of this repository) clamps one axis into the envelope's
min/max honouring the step. -/
def clampFrmsize (x mn mx step : Nat) : Nat :=
  min mx (max mn ((x + step - 1) / step * step))

/-- Shape of the oracle standing for the descriptor's optional
`adjust_fmt` hook (codec-specific, outside this file's scope): it may
rewrite the format and may fail. -/
def AdjustOracle : Type := PixMp → Int × PixMp

/-- rkvdec2_try_output_fmt: fall back to the first registry entry when
the fourcc is unknown, clamp the geometry into the descriptor's
envelope, force single-plane progressive layout, then run the
descriptor's adjust hook. -/
def rkvdec2_try_output_fmt (adjust : AdjustOracle) (f : PixMp) :
    Int × PixMp :=
  let dflt : CodedFmtDesc := ⟨0, ⟨0, 0, 1, 0, 0, 1⟩, []⟩
  let first := rkvdec2_coded_fmts.headD dflt
  let (desc, f) :=
    match rkvdec2_find_coded_fmt_desc f.pixelformat with
    | some d => (d, f)
    | none => (first, { f with pixelformat := first.fourcc })
  let f := { f with
      width := clampFrmsize f.width desc.frmsize.min_width
        desc.frmsize.max_width desc.frmsize.step_width
      height := clampFrmsize f.height desc.frmsize.min_height
        desc.frmsize.max_height desc.frmsize.step_height
      fieldv := V4L2_FIELD_NONE
      num_planes := 1 }
  adjust f

/-- rkvdec2_s_output_fmt: reject while the output queue is streaming, or
busy with a pixel-format change, or while the capture queue holds
buffers; on accept, adopt the adjusted format, reset the decoded format
and propagate the colorimetry.  (The vb2 subsystem-flag update touches
only the external queue object and has no image in this state.)  Errors
return the context unchanged. -/
def rkvdec2_s_output_fmt (fill : FillOracle) (adjust : AdjustOracle)
    (q : QueueFlags) (ctx : Ctx) (f : PixMp) : Int × Ctx :=
  if q.out_streaming ||
     (q.out_busy && decide (f.pixelformat ≠ ctx.coded_fmt.pixelformat)) then
    (-EBUSY, ctx)
  else if q.cap_busy then (-EBUSY, ctx)
  else
    let (ret, f') := rkvdec2_try_output_fmt adjust f
    if ret ≠ 0 then (ret, ctx)
    else
      match rkvdec2_find_coded_fmt_desc f'.pixelformat with
      | none => (-EINVAL, ctx)
      | some desc =>
        let ctx1 := { ctx with coded_fmt_desc := desc, coded_fmt := f' }
        let ctx2 := rkvdec2_reset_decoded_fmt fill ctx1
        let d := ctx2.decoded_fmt
        (0, { ctx2 with decoded_fmt :=
              { d with
                  colorspace := f'.colorspace
                  xfer_func := f'.xfer_func
                  ycbcr_enc := f'.ycbcr_enc
                  quantization := f'.quantization } })

/-- Result record of VIDIOC_ENUM_FRAMESIZES. -/
structure FrmSizeEnum where
  typev : Nat
  min_width : Nat
  max_width : Nat
  step_width : Nat
  min_height : Nat
  max_height : Nat
  step_height : Nat
deriving DecidableEq, Repr

/-- rkvdec2_enum_framesizes: only index 0 of a known coded format is
valid; the reported range is continuous with minima and steps hardwired
to 1 and maxima taken from the descriptor's envelope. -/
def rkvdec2_enum_framesizes (index : Nat) (pixel_format : Nat) :
    Int × Option FrmSizeEnum :=
  if index ≠ 0 then (-EINVAL, none)
  else
    match rkvdec2_find_coded_fmt_desc pixel_format with
    | none => (-EINVAL, none)
    | some desc =>
      (0, some ⟨V4L2_FRMSIZE_TYPE_CONTINUOUS, 1, desc.frmsize.max_width, 1,
                1, desc.frmsize.max_height, 1⟩)

/-- Direction of a vb2 queue. -/
inductive QueueType where
  | output
  | capture
deriving DecidableEq, Repr

/-- rkvdec2_start_streaming: a capture-queue start does nothing and
succeeds; an output-queue start allocates the scratch-buffer set
(aborting with its error), then runs the descriptor's optional `start`
hook (`startHook` is `none` when the descriptor has no hook, otherwise
the hook's return value), releasing the whole set again if the hook
fails. -/
def rkvdec2_start_streaming (o : AllocOracle) (startHook : Option Int)
    (st : MemState) (ctx : Ctx) (qt : QueueType) :
    Int × MemState × Ctx × List Event :=
  match qt with
  | QueueType.capture => (0, st, ctx, [])
  | QueueType.output =>
    let a := rkvdec2_allocate_rcb o st ctx
    if a.1 ≠ 0 then a
    else
      match startHook with
      | none => a
      | some r =>
        if r = 0 then (0, a.2.1, a.2.2.1, a.2.2.2)
        else
          let fr := rkvdec2_free_rcb o.iommu_domain a.2.1 a.2.2.1
          (r, fr.1, fr.2.1, a.2.2.2 ++ fr.2.2)

/-- Terminal outcome reported for a finished job (vb2 buffer state). -/
inductive BufState where
  | done
  | error
deriving DecidableEq, Repr

/-- State of one dispatched job's completion: whether the single-shot
watchdog timer is still pending, how many times the job has been
finished, and with which outcome. -/
structure JobRace where
  timerPending : Bool
  finishes : Nat
  outcome : Option BufState
deriving DecidableEq, Repr

/-- A dispatched job: `run` has armed the watchdog and nothing has
completed yet. -/
def armedJob : JobRace := ⟨true, 0, none⟩

/-- rkvdec2_irq_handler completion step: classify the outcome from the
decode-ready status bit, then finish the job only when
`cancel_delayed_work` succeeds.  Modelled from the spec:
cancel_delayed_work (kernel workqueue, not part of this repository)
atomically tests and consumes the timer's pending state, reporting
whether it was still pending. -/
def rkvdec2_irq_step (decRdy : Bool) (s : JobRace) : JobRace :=
  let st := if decRdy then BufState.done else BufState.error
  if s.timerPending then ⟨false, s.finishes + 1, some st⟩
  else { s with timerPending := false }

/-- rkvdec2_watchdog_func completion step: the workqueue runs the
delayed work only by consuming the same pending state; the handler then
quiesces the hardware and finishes the job with an error outcome. -/
def rkvdec2_watchdog_step (s : JobRace) : JobRace :=
  if s.timerPending then ⟨false, s.finishes + 1, some BufState.error⟩
  else s

/-- The two racing completion paths. -/
inductive CompletionPath where
  | irq
  | watchdog
deriving DecidableEq, Repr

/-- Run one completion path as an atomic step. -/
def runPath (decRdy : Bool) (p : CompletionPath) (s : JobRace) : JobRace :=
  match p with
  | CompletionPath.irq => rkvdec2_irq_step decRdy s
  | CompletionPath.watchdog => rkvdec2_watchdog_step s

/-- The completion path other than `p`. -/
def otherPath (p : CompletionPath) : CompletionPath :=
  match p with
  | CompletionPath.irq => CompletionPath.watchdog
  | CompletionPath.watchdog => CompletionPath.irq

/-- C7: for a dispatched job (watchdog armed), whichever of the two
completion paths runs first observes the pending timer, consumes it and
performs the single job finish; the other path is then a no-op, and the
job ends with exactly one terminal outcome. -/
theorem C7_completion_race (decRdy : Bool) (first : CompletionPath) :
    runPath decRdy (otherPath first) (runPath decRdy first armedJob) =
      runPath decRdy first armedJob ∧
    (runPath decRdy first armedJob).finishes = 1 ∧
    (runPath decRdy first armedJob).outcome ≠ none := by
  cases decRdy <;> cases first <;> decide

/-- C10: frame-size enumeration succeeds exactly for index 0 of a known
coded fourcc; the reported range is continuous with minimum sizes and
steps hardwired to 1, the maxima coming from the descriptor, whereas
the descriptor's own envelope has minimum 64 x 16 and step 64 x 16. -/
theorem C10_enum_framesizes (index pixel_format : Nat) :
    ((rkvdec2_enum_framesizes index pixel_format).1 = 0 ↔
      index = 0 ∧ (rkvdec2_find_coded_fmt_desc pixel_format).isSome = true) ∧
    (∀ desc : CodedFmtDesc,
      rkvdec2_find_coded_fmt_desc pixel_format = some desc → index = 0 →
      rkvdec2_enum_framesizes index pixel_format =
        (0, some ⟨V4L2_FRMSIZE_TYPE_CONTINUOUS, 1, desc.frmsize.max_width, 1,
                  1, desc.frmsize.max_height, 1⟩)) ∧
    (∀ desc ∈ rkvdec2_coded_fmts,
      desc.frmsize.min_width = 64 ∧ desc.frmsize.step_width = 64 ∧
      desc.frmsize.min_height = 16 ∧ desc.frmsize.step_height = 16) := by
  refine ⟨?_, ?_, by decide⟩
  · by_cases hi : index = 0
    · subst hi
      cases hf : rkvdec2_find_coded_fmt_desc pixel_format <;>
        simp [rkvdec2_enum_framesizes, hf, EINVAL]
    · simp [rkvdec2_enum_framesizes, hi, EINVAL]
  · intro desc hf h0
    subst h0
    simp [rkvdec2_enum_framesizes, hf]

/-- C10 witness: concrete successful enumeration for the H.264 coded
format at index 0. -/
theorem C10_enum_framesizes_witness :
    rkvdec2_enum_framesizes 0 V4L2_PIX_FMT_H264_SLICE =
      (0, some ⟨V4L2_FRMSIZE_TYPE_CONTINUOUS, 1, 65520, 1, 1, 65520, 1⟩) :=
  (C10_enum_framesizes 0 V4L2_PIX_FMT_H264_SLICE).2.1
    ⟨V4L2_PIX_FMT_H264_SLICE, ⟨64, 65520, 64, 16, 65520, 16⟩,
      rkvdec2_h264_decoded_fmts⟩ (by decide) rfl

/-- Accumulator characterization of the enumeration loop: starting the
running match counter at `k`, asking for index `k + 1 + j` returns the
j-th entry of the filtered table (as the C loop pre-increments the
counter before comparing). -/
theorem enumDecodedFmtAux_eq (flt : ImageFmt) :
    ∀ (fmts : List DecodedFmtDesc) (j : Nat) (k : Int),
      enumDecodedFmtAux (k + 1 + j) flt fmts k =
        (((fmts.filter fun d =>
            rkvdec2_image_fmt_match d.image_fmt flt)[j]?).map
          DecodedFmtDesc.fourcc).getD 0 := by
  intro fmts
  induction fmts with
  | nil => intro j k; simp [enumDecodedFmtAux]
  | cons d rest ih =>
    intro j k
    by_cases hm : rkvdec2_image_fmt_match d.image_fmt flt
    · cases j with
      | zero =>
        simp [enumDecodedFmtAux, hm, List.filter_cons_of_pos]
      | succ j' =>
        have hne : (k + 1 + ((j' + 1 : Nat) : Int)) ≠ k + 1 := by
          push_cast; omega
        have harg : (k + 1 + ((j' + 1 : Nat) : Int)) = (k + 1) + 1 + j' := by
          push_cast; ring
        simp only [enumDecodedFmtAux, hm, if_true, hne, if_false,
          List.filter_cons, List.getElem?_cons_succ, ite_false]
        rw [harg]
        exact ih j' (k + 1)
    · simp only [enumDecodedFmtAux, hm, List.filter_cons,
        Bool.false_eq_true, ite_false, if_false]
      exact ih j k

/-- C6: the decoded-format enumeration walks the descriptor's table in
order, skips entries whose image kind does not match the filter and
returns the fourcc of the n-th matching entry (0, the not-found
indication, past the end); image-kind matching is symmetric and holds
exactly when either side is the wildcard or the kinds are equal. -/
theorem C6_enum_decoded_fmt :
    (∀ (desc : CodedFmtDesc) (n : Nat) (flt : ImageFmt),
      rkvdec2_enum_decoded_fmt desc (n : Int) flt =
        (((desc.decoded_fmts.filter fun d =>
            rkvdec2_image_fmt_match d.image_fmt flt)[n]?).map
          DecodedFmtDesc.fourcc).getD 0) ∧
    (∀ f1 f2, rkvdec2_image_fmt_match f1 f2 =
      rkvdec2_image_fmt_match f2 f1) ∧
    (∀ f1 f2, rkvdec2_image_fmt_match f1 f2 = true ↔
      f2 = ImageFmt.any ∨ f1 = ImageFmt.any ∨ f1 = f2) := by
  refine ⟨?_, ?_, ?_⟩
  · intro desc n flt
    have h := enumDecodedFmtAux_eq flt desc.decoded_fmts n (-1)
    have harg : ((-1 : Int) + 1 + n) = (n : Int) := by ring
    rw [harg] at h
    exact h
  · intro f1 f2; cases f1 <;> cases f2 <;> decide
  · intro f1 f2; cases f1 <;> cases f2 <;> decide

/-- C5: after resetting the decoded format, the pixel format is the
first decoded format enumerated under the current image kind, the
geometry is copied from the coded format, and plane 0's total size is
the base layout size plus 128 bytes per 16 x 16 macroblock (both
dimensions rounded up).  The width/height bounds are the coded
envelope's maxima and the size bound keeps the u32 sum from wrapping. -/
theorem C5_reset_decoded_fmt (fill : FillOracle) (ctx : Ctx)
    (hw : ctx.coded_fmt.width ≤ 65520) (hh : ctx.coded_fmt.height ≤ 65520)
    (hbase :
      (fill (rkvdec2_enum_decoded_fmt ctx.coded_fmt_desc 0 ctx.image_fmt)
        ctx.coded_fmt.width ctx.coded_fmt.height).sizeimage0 +
      128 * ((ctx.coded_fmt.width + 15) / 16) *
        ((ctx.coded_fmt.height + 15) / 16) < 4294967296) :
    (rkvdec2_reset_decoded_fmt fill ctx).decoded_fmt.pixelformat =
      rkvdec2_enum_decoded_fmt ctx.coded_fmt_desc 0 ctx.image_fmt ∧
    (rkvdec2_reset_decoded_fmt fill ctx).decoded_fmt.width =
      ctx.coded_fmt.width ∧
    (rkvdec2_reset_decoded_fmt fill ctx).decoded_fmt.height =
      ctx.coded_fmt.height ∧
    (rkvdec2_reset_decoded_fmt fill ctx).decoded_fmt.plane0_sizeimage =
      (fill (rkvdec2_enum_decoded_fmt ctx.coded_fmt_desc 0 ctx.image_fmt)
        ctx.coded_fmt.width ctx.coded_fmt.height).sizeimage0 +
      128 * ((ctx.coded_fmt.width + 15) / 16) *
        ((ctx.coded_fmt.height + 15) / 16) := by
  have h1 : w32 (ctx.coded_fmt.width + 15) = ctx.coded_fmt.width + 15 :=
    Nat.mod_eq_of_lt (by omega)
  have h2 : w32 (ctx.coded_fmt.height + 15) = ctx.coded_fmt.height + 15 :=
    Nat.mod_eq_of_lt (by omega)
  have hq1 : (ctx.coded_fmt.width + 15) / 16 ≤ 4095 := by omega
  have hq2 : (ctx.coded_fmt.height + 15) / 16 ≤ 4095 := by omega
  have h3 : w32 (128 * ((ctx.coded_fmt.width + 15) / 16)) =
      128 * ((ctx.coded_fmt.width + 15) / 16) :=
    Nat.mod_eq_of_lt (by omega)
  have h4 : w32 (128 * ((ctx.coded_fmt.width + 15) / 16) *
      ((ctx.coded_fmt.height + 15) / 16)) =
      128 * ((ctx.coded_fmt.width + 15) / 16) *
        ((ctx.coded_fmt.height + 15) / 16) := by
    refine Nat.mod_eq_of_lt ?_
    have := Nat.mul_le_mul (Nat.mul_le_mul_left 128 hq1) hq2
    omega
  simp only [rkvdec2_reset_decoded_fmt, rkvdec2_fill_decoded_pixfmt,
    rkvdec2_reset_fmt, zeroPixMp]
  refine ⟨trivial, trivial, trivial, ?_⟩
  simp only [h1, h2, h3, h4]
  exact Nat.mod_eq_of_lt hbase

/-- Concrete base-layout oracle used by witnesses: one plane of
w * h * 3 / 2 bytes (an NV12-style layout). -/
def fillNv12 : FillOracle := fun _ w h => ⟨1, w * h * 3 / 2⟩

/-- Adjust hook used by witnesses: accept the format unchanged. -/
def adjustId : AdjustOracle := fun f => (0, f)

/-- The H.264 coded-format descriptor (the registry's sole and first
entry). -/
def descH264 : CodedFmtDesc :=
  ⟨V4L2_PIX_FMT_H264_SLICE, ⟨64, 65520, 64, 16, 65520, 16⟩,
   rkvdec2_h264_decoded_fmts⟩

/-- A session context right after open: default coded format 64 x 16,
all scratch records zeroed. -/
def ctxOpen : Ctx :=
  ⟨descH264,
   ⟨V4L2_PIX_FMT_H264_SLICE, 64, 16, 1, 0, 1, 3, 0, 0, 0⟩,
   ⟨V4L2_PIX_FMT_NV12, 64, 16, 1, 2048, 1, 3, 0, 0, 0⟩,
   ImageFmt.any, 0, List.replicate 10 zeroBuf⟩

/-- C5 witness: the concrete reset at 64 x 16 with the NV12-style base
layout. -/
theorem C5_reset_decoded_fmt_witness :
    (rkvdec2_reset_decoded_fmt fillNv12 ctxOpen).decoded_fmt.pixelformat =
      rkvdec2_enum_decoded_fmt ctxOpen.coded_fmt_desc 0 ctxOpen.image_fmt ∧
    (rkvdec2_reset_decoded_fmt fillNv12 ctxOpen).decoded_fmt.width =
      ctxOpen.coded_fmt.width ∧
    (rkvdec2_reset_decoded_fmt fillNv12 ctxOpen).decoded_fmt.height =
      ctxOpen.coded_fmt.height ∧
    (rkvdec2_reset_decoded_fmt fillNv12 ctxOpen).decoded_fmt.plane0_sizeimage =
      (fillNv12 (rkvdec2_enum_decoded_fmt ctxOpen.coded_fmt_desc 0
          ctxOpen.image_fmt)
        ctxOpen.coded_fmt.width ctxOpen.coded_fmt.height).sizeimage0 +
      128 * ((ctxOpen.coded_fmt.width + 15) / 16) *
        ((ctxOpen.coded_fmt.height + 15) / 16) :=
  C5_reset_decoded_fmt fillNv12 ctxOpen (by decide) (by decide) (by decide)

/-- C4: setting the output (coded) format is rejected with EBUSY and the
session state is left untouched whenever the output queue is streaming
(in particular when the request would change geometry or pixel format),
or the output queue is busy and the pixel format would change, or the
capture queue already holds buffers. -/
theorem C4_s_output_fmt_reject (fill : FillOracle) (adjust : AdjustOracle)
    (q : QueueFlags) (ctx : Ctx) (f : PixMp)
    (h : (q.out_streaming = true ∧
            (f.pixelformat ≠ ctx.coded_fmt.pixelformat ∨
             f.width ≠ ctx.coded_fmt.width ∨
             f.height ≠ ctx.coded_fmt.height)) ∨
         (q.out_busy = true ∧ f.pixelformat ≠ ctx.coded_fmt.pixelformat) ∨
         q.cap_busy = true) :
    rkvdec2_s_output_fmt fill adjust q ctx f = (-EBUSY, ctx) := by
  rcases h with ⟨hs, _⟩ | ⟨hb, hne⟩ | hc
  · simp [rkvdec2_s_output_fmt, hs]
  · by_cases hs : q.out_streaming
    · simp [rkvdec2_s_output_fmt, hs]
    · simp [rkvdec2_s_output_fmt, hs, hb, hne]
  · by_cases hs : q.out_streaming
    · simp [rkvdec2_s_output_fmt, hs]
    · by_cases hb : q.out_busy <;>
        by_cases hne : f.pixelformat = ctx.coded_fmt.pixelformat <;>
        simp [rkvdec2_s_output_fmt, hs, hb, hne, hc]

/-- C4 witness: a pixel-format change while the output queue is busy is
rejected and the context preserved. -/
theorem C4_s_output_fmt_reject_witness :
    rkvdec2_s_output_fmt fillNv12 adjustId ⟨false, true, false⟩ ctxOpen
      ⟨V4L2_PIX_FMT_NV12, 64, 16, 1, 0, 1, 3, 0, 0, 0⟩ =
      (-EBUSY, ctxOpen) :=
  C4_s_output_fmt_reject fillNv12 adjustId ⟨false, true, false⟩ ctxOpen
    ⟨V4L2_PIX_FMT_NV12, 64, 16, 1, 0, 1, 3, 0, 0, 0⟩
    (Or.inr (Or.inl ⟨rfl, by decide⟩))

/-- C3: for every kind k < 10 and valid geometry, the raw size equals
the kind's fixed multiplier times the height or width as selected by
the kind's axis; and whenever an SRAM pool and an IOMMU are configured,
the size the allocator requests from the pool (its first external call)
is that raw size rounded up to the next multiple of 4096. -/
theorem C3_rcb_sizes (o : AllocOracle) (st : MemState) (k w h : Nat)
    (hk : k < RKVDEC2_RCB_COUNT) (hw : w ≤ 65520) (hh : h ≤ 65520) :
    RCB_SIZE k w h =
      (rcbInfo k).multiplier *
        (match (rcbInfo k).axis with
         | RcbAxis.picHeight => h
         | RcbAxis.picWidth => w) ∧
    (o.sram_pool = true → o.iommu_domain = true →
      (allocStep o st w h k).2.2.head? =
        some (Event.poolAllocReq k (align4096 (RCB_SIZE k w h)))) := by
  constructor
  · have hm : (rcbInfo k).multiplier ≤ 67 := by
      simp only [RKVDEC2_RCB_COUNT] at hk
      interval_cases k <;> decide
    unfold RCB_SIZE w32
    cases hax : (rcbInfo k).axis <;> simp only [hax]
    · have := Nat.mul_le_mul hm hw
      exact Nat.mod_eq_of_lt (by omega)
    · have := Nat.mul_le_mul hm hh
      exact Nat.mod_eq_of_lt (by omega)
  · intro hp hd
    rcases hpa : o.poolAlloc k (align4096 (RCB_SIZE k w h)) with _ | ⟨c, d⟩
    · rcases hda : o.dmaAlloc k (RCB_SIZE k w h) with _ | ⟨c2, d2⟩ <;>
        simp [allocStep, ramFallback, hp, hd, hpa, hda]
    · rcases hmp : o.iommuMapOk k with _ | _
      · rcases hda : o.dmaAlloc k (RCB_SIZE k w h) with _ | ⟨c2, d2⟩ <;>
          simp [allocStep, ramFallback, hp, hd, hpa, hmp, hda]
      · simp [allocStep, ramFallback, hp, hd, hpa, hmp]

/-- A memory ledger with no live resources. -/
def stEmpty : MemState := ⟨0, 0, 0⟩

/-- An allocation oracle with pool and IOMMU configured where every
external allocation and mapping succeeds. -/
def oracleAllOk : AllocOracle :=
  ⟨true, true, fun i _ => some (4096 * (i + 1), 65536 + i), fun _ => true,
   fun i _ => some (1 <<< 20 ||| i, 0)⟩

/-- C3 witness: kind 9 (67 x height) at 64 x 16: raw size 1072, pool
request 4096. -/
theorem C3_rcb_sizes_witness :
    RCB_SIZE 9 64 16 =
      (rcbInfo 9).multiplier *
        (match (rcbInfo 9).axis with
         | RcbAxis.picHeight => 16
         | RcbAxis.picWidth => 64) ∧
    (oracleAllOk.sram_pool = true → oracleAllOk.iommu_domain = true →
      (allocStep oracleAllOk stEmpty 64 16 9).2.2.head? =
        some (Event.poolAllocReq 9 (align4096 (RCB_SIZE 9 64 16)))) :=
  C3_rcb_sizes oracleAllOk stEmpty 9 64 16 (by decide) (by decide) (by decide)

/-- C8: (1) if the pool allocation succeeds but installing the IOMMU
mapping fails, the pool allocation is released (pool and mapping
ledgers unchanged net), the recorded trace is pool-request, map-request,
pool-release, then a system-memory request for the un-rounded raw size,
and a successful fallback yields a system-memory record of the raw
size; (2) with no pool configured the single request is a system-memory
request for the raw size; (3) with a pool but a failed pool allocation
the fallback request also uses the raw size; (4) every record either
path produces is zero-initialized. -/
theorem C8_ram_fallback (o : AllocOracle) (st : MemState) (w h i : Nat) :
    (∀ c d, o.sram_pool = true → o.iommu_domain = true →
      o.poolAlloc i (align4096 (RCB_SIZE i w h)) = some (c, d) →
      o.iommuMapOk i = false →
      (allocStep o st w h i).1.poolLive = st.poolLive ∧
      (allocStep o st w h i).1.mapped = st.mapped ∧
      (allocStep o st w h i).2.2 =
        [Event.poolAllocReq i (align4096 (RCB_SIZE i w h)),
         Event.mapReq i c (align4096 (RCB_SIZE i w h)),
         Event.poolRelease c (align4096 (RCB_SIZE i w h)),
         Event.dmaAllocReq i (RCB_SIZE i w h)] ∧
      (∀ c2 d2, o.dmaAlloc i (RCB_SIZE i w h) = some (c2, d2) →
        (allocStep o st w h i).2.1 =
          some ⟨some c2, d2, RCB_SIZE i w h, AllocType.dma, true⟩)) ∧
    (o.sram_pool = false →
      (allocStep o st w h i).2.2 = [Event.dmaAllocReq i (RCB_SIZE i w h)] ∧
      (∀ c2 d2, o.dmaAlloc i (RCB_SIZE i w h) = some (c2, d2) →
        (allocStep o st w h i).2.1 =
          some ⟨some c2, d2, RCB_SIZE i w h, AllocType.dma, true⟩)) ∧
    (∀ psz, o.sram_pool = true →
      psz = (if o.iommu_domain then align4096 (RCB_SIZE i w h)
             else RCB_SIZE i w h) →
      o.poolAlloc i psz = none →
      (allocStep o st w h i).2.2 =
        [Event.poolAllocReq i psz, Event.dmaAllocReq i (RCB_SIZE i w h)] ∧
      (∀ c2 d2, o.dmaAlloc i (RCB_SIZE i w h) = some (c2, d2) →
        (allocStep o st w h i).2.1 =
          some ⟨some c2, d2, RCB_SIZE i w h, AllocType.dma, true⟩)) ∧
    (∀ buf, (allocStep o st w h i).2.1 = some buf → buf.zeroed = true) := by
  refine ⟨?_, ?_, ?_, ?_⟩
  · intro c d hp hd hpa hmp
    rcases hda : o.dmaAlloc i (RCB_SIZE i w h) with _ | ⟨c2, d2⟩ <;>
      simp [allocStep, ramFallback, hp, hd, hpa, hmp, hda,
        Multiset.erase_cons_head]
  · intro hp
    rcases hda : o.dmaAlloc i (RCB_SIZE i w h) with _ | ⟨c2, d2⟩ <;>
      simp [allocStep, ramFallback, hp, hda]
  · intro psz hp hpsz hpa
    subst hpsz
    rcases hd : o.iommu_domain with _ | _ <;>
      rcases hda : o.dmaAlloc i (RCB_SIZE i w h) with _ | ⟨c2, d2⟩ <;>
      simp_all [allocStep, ramFallback]
  · intro buf hbuf
    rcases hp : o.sram_pool with _ | _ <;>
      rcases hd : o.iommu_domain with _ | _ <;>
      rcases hpa : o.poolAlloc i (if o.iommu_domain then
          align4096 (RCB_SIZE i w h) else RCB_SIZE i w h) with _ | ⟨c, d⟩ <;>
      rcases hmp : o.iommuMapOk i with _ | _ <;>
      rcases hda : o.dmaAlloc i (RCB_SIZE i w h) with _ | ⟨c2, d2⟩ <;>
      simp_all [allocStep, ramFallback] <;>
      rcases hbuf with rfl | h2 <;> simp_all

/-- An allocation oracle whose IOMMU mapping always fails while both
allocators succeed. -/
def oracleMapFails : AllocOracle :=
  ⟨true, true, fun i _ => some (4096 * (i + 1), 65536 + i), fun _ => false,
   fun i _ => some (1 <<< 20 ||| i, 0)⟩

/-- C8 witness: kind 0 at 64 x 16 with a failing mapping: the pool
allocation is rolled back and the record comes from system memory with
the raw size (384 bytes), zero-initialized. -/
theorem C8_ram_fallback_witness :
    (allocStep oracleMapFails stEmpty 64 16 0).1.poolLive =
      stEmpty.poolLive ∧
    (allocStep oracleMapFails stEmpty 64 16 0).1.mapped = stEmpty.mapped ∧
    (allocStep oracleMapFails stEmpty 64 16 0).2.2 =
      [Event.poolAllocReq 0 (align4096 (RCB_SIZE 0 64 16)),
       Event.mapReq 0 4096 (align4096 (RCB_SIZE 0 64 16)),
       Event.poolRelease 4096 (align4096 (RCB_SIZE 0 64 16)),
       Event.dmaAllocReq 0 (RCB_SIZE 0 64 16)] ∧
    (∀ c2 d2, oracleMapFails.dmaAlloc 0 (RCB_SIZE 0 64 16) = some (c2, d2) →
      (allocStep oracleMapFails stEmpty 64 16 0).2.1 =
        some ⟨some c2, d2, RCB_SIZE 0 64 16, AllocType.dma, true⟩) :=
  (C8_ram_fallback oracleMapFails stEmpty 64 16 0).1 4096 65536 rfl rfl
    (by decide) rfl

/-- Pool-ledger footprint of one record: the (address, size) pair it
returns to the SRAM pool when freed. -/
def bufPool (b : RcbBuf) : Multiset (Nat × Nat) :=
  match b.cpu, b.type with
  | some c, AllocType.sram => {(c, b.size)}
  | _, _ => 0

/-- System-memory-ledger footprint of one record. -/
def bufDma (b : RcbBuf) : Multiset (Nat × Nat) :=
  match b.cpu, b.type with
  | some c, AllocType.dma => {(c, b.size)}
  | _, _ => 0

/-- Pool footprint of a record array. -/
def poolOf (bufs : List RcbBuf) : Multiset (Nat × Nat) :=
  (bufs.map bufPool).sum

/-- System-memory footprint of a record array. -/
def dmaOf (bufs : List RcbBuf) : Multiset (Nat × Nat) :=
  (bufs.map bufDma).sum

/-- Mapping footprint of a record array (empty without an IOMMU domain,
since unmapping is then a no-op on the mapping ledger). -/
def mapOf (dom : Bool) (bufs : List RcbBuf) : Multiset (Nat × Nat) :=
  if dom then poolOf bufs else 0

/-- Truncated-subtraction cancellation for multisets, proved by
counting. -/
theorem ms_add_sub_add_left {α : Type} [DecidableEq α]
    (c a b : Multiset α) : (c + a) - (c + b) = a - b := by
  refine Multiset.ext.mpr fun x => ?_
  simp only [Multiset.count_sub, Multiset.count_add]
  omega

/-- Erasing an element and then subtracting equals subtracting the
element together with the rest. -/
theorem ms_erase_sub {α : Type} [DecidableEq α] (s t : Multiset α)
    (a : α) : s.erase a - t = s - ({a} + t) := by
  rw [← Multiset.sub_singleton, tsub_tsub]

/-- rkvdec2_free_rcb subtracts exactly the records' footprints from the
three ledgers. -/
theorem freeFold_fst (dom : Bool) :
    ∀ (bufs : List RcbBuf) (st : MemState),
      (freeFold dom st bufs).1 =
        ⟨st.poolLive - poolOf bufs, st.dmaLive - dmaOf bufs,
         st.mapped - mapOf dom bufs⟩ := by
  intro bufs
  induction bufs with
  | nil =>
    intro st
    cases st
    simp [freeFold, poolOf, dmaOf, mapOf]
  | cons b rest ih =>
    intro st
    rcases hcpu : b.cpu with _ | c
    · have hb1 : bufPool b = 0 := by simp [bufPool, hcpu]
      have hb2 : bufDma b = 0 := by simp [bufDma, hcpu]
      simp only [freeFold, hcpu]
      rw [ih st]
      simp [poolOf, dmaOf, mapOf, hb1, hb2]
    · rcases htype : b.type with _ | _
      · have hb1 : bufPool b = {(c, b.size)} := by simp [bufPool, hcpu, htype]
        have hb2 : bufDma b = 0 := by simp [bufDma, hcpu, htype]
        have hp' : poolOf (b :: rest) = {(c, b.size)} + poolOf rest := by
          simp [poolOf, hb1]
        have hd' : dmaOf (b :: rest) = dmaOf rest := by
          simp [dmaOf, hb2]
        simp only [freeFold, hcpu, htype]
        rw [ih]
        cases dom with
        | false =>
          rw [hp', hd']
          simp only [MemState.mk.injEq, mapOf, Bool.false_eq_true, if_false]
          exact ⟨ms_erase_sub _ _ _, trivial, trivial⟩
        | true =>
          have hm' : mapOf true (b :: rest) = {(c, b.size)} + mapOf true rest := by
            simp [mapOf, hp']
          rw [hp', hd', hm']
          simp only [MemState.mk.injEq, if_true]
          exact ⟨ms_erase_sub _ _ _, trivial, ms_erase_sub _ _ _⟩
      · have hb1 : bufPool b = 0 := by simp [bufPool, hcpu, htype]
        have hb2 : bufDma b = {(c, b.size)} := by simp [bufDma, hcpu, htype]
        have hp' : poolOf (b :: rest) = poolOf rest := by
          simp [poolOf, hb1]
        have hd' : dmaOf (b :: rest) = {(c, b.size)} + dmaOf rest := by
          simp [dmaOf, hb2]
        simp only [freeFold, hcpu, htype]
        rw [ih]
        rw [hp', hd']
        have hm' : ∀ d : Bool, mapOf d (b :: rest) = mapOf d rest := by
          intro d; simp [mapOf, hp']
        rw [hm']
        simp only [MemState.mk.injEq]
        exact ⟨trivial, ms_erase_sub _ _ _, trivial⟩

set_option linter.unnecessarySeqFocus false in
/-- A failing per-kind allocation leaves the ledger unchanged (the
partial pool allocation of a failed mapping attempt is rolled back
inside the step). -/
theorem allocStep_none (o : AllocOracle) (st : MemState) (w h i : Nat)
    (st' : MemState) (evs : List Event)
    (hstep : allocStep o st w h i = (st', none, evs)) : st' = st := by
  rcases hp : o.sram_pool with _ | _ <;>
    rcases hd : o.iommu_domain with _ | _ <;>
    rcases hpa : o.poolAlloc i (if o.iommu_domain then
        align4096 (RCB_SIZE i w h) else RCB_SIZE i w h) with _ | ⟨c, d⟩ <;>
    rcases hmp : o.iommuMapOk i with _ | _ <;>
    rcases hda : o.dmaAlloc i (RCB_SIZE i w h) with _ | ⟨c2, d2⟩ <;>
    simp_all [allocStep, ramFallback, Multiset.erase_cons_head] <;>
    exact hstep.1.symm

/-- A successful per-kind allocation adds exactly the new record's
footprint to the ledgers (the mapping ledger only when an IOMMU domain
is configured). -/
theorem allocStep_some (o : AllocOracle) (st : MemState) (w h i : Nat)
    (st' : MemState) (buf : RcbBuf) (evs : List Event)
    (hstep : allocStep o st w h i = (st', some buf, evs)) :
    st'.poolLive = bufPool buf + st.poolLive ∧
    st'.dmaLive = bufDma buf + st.dmaLive ∧
    st'.mapped = (if o.iommu_domain then bufPool buf else 0) + st.mapped := by
  rcases hp : o.sram_pool with _ | _ <;>
    rcases hd : o.iommu_domain with _ | _ <;>
    rcases hpa : o.poolAlloc i (if o.iommu_domain then
        align4096 (RCB_SIZE i w h) else RCB_SIZE i w h) with _ | ⟨c, d⟩ <;>
    rcases hmp : o.iommuMapOk i with _ | _ <;>
    rcases hda : o.dmaAlloc i (RCB_SIZE i w h) with _ | ⟨c2, d2⟩ <;>
    simp_all [allocStep, ramFallback, Multiset.erase_cons_head] <;>
    obtain ⟨hst, hbuf, hev⟩ := hstep <;> subst hst <;> subst hbuf <;>
    simp [bufPool, bufDma, Multiset.singleton_add]

/-- Replacing a footprint-free list entry adds the new entry's image to
the mapped sum. -/
theorem sumMap_set (f : RcbBuf → Multiset (Nat × Nat)) :
    ∀ (l : List RcbBuf) (i : Nat) (x b : RcbBuf), l[i]? = some b →
      f b = 0 → ((l.set i x).map f).sum = f x + (l.map f).sum := by
  intro l
  induction l with
  | nil => intro i x b hb; simp at hb
  | cons hd tl ih =>
    intro i x b hb h0
    cases i with
    | zero =>
      simp only [List.getElem?_cons_zero, Option.some.injEq] at hb
      subst hb
      simp [h0]
    | succ i' =>
      simp only [List.getElem?_cons_succ] at hb
      simp only [List.set_cons_succ, List.map_cons, List.sum_cons]
      rw [ih i' x b hb h0, add_left_comm]

/-- Running the allocation loop and then releasing whatever record
array it produced has the same ledger effect as releasing the starting
record array from the starting ledger, provided the positions the loop
may write are distinct and initially hold unallocated records.  This
holds whether the loop completes or aborts. -/
theorem allocGo_free_inv (o : AllocOracle) (w h : Nat) :
    ∀ (rest : List Nat) (st : MemState) (bufs : List RcbBuf)
      (evs : List Event),
      rest.Nodup →
      (∀ j ∈ rest, ∃ b, bufs[j]? = some b ∧ b.cpu = none) →
      (freeFold o.iommu_domain (allocGo o w h rest st bufs evs).1
        (allocGo o w h rest st bufs evs).2.1).1 =
      (freeFold o.iommu_domain st bufs).1 := by
  intro rest
  induction rest with
  | nil => intro st bufs evs _ _; rfl
  | cons i rest ih =>
    intro st bufs evs hnd hcl
    have hni : i ∉ rest := (List.nodup_cons.mp hnd).1
    have hnd' : rest.Nodup := (List.nodup_cons.mp hnd).2
    rcases hstep : allocStep o st w h i with ⟨st1, ob, evs'⟩
    cases ob with
    | none =>
      have hst : st1 = st := allocStep_none o st w h i st1 evs' hstep
      simp only [allocGo, hstep]
      rw [hst]
    | some buf =>
      obtain ⟨hL1, hL2, hL3⟩ := allocStep_some o st w h i st1 buf evs' hstep
      obtain ⟨bold, hbold, hbcpu⟩ := hcl i (List.mem_cons_self i rest)
      have hp0 : bufPool bold = 0 := by simp [bufPool, hbcpu]
      have hd0 : bufDma bold = 0 := by simp [bufDma, hbcpu]
      simp only [allocGo, hstep]
      rw [ih st1 (bufs.set i buf) (evs ++ evs') hnd' ?_]
      · rw [freeFold_fst, freeFold_fst]
        have hps : poolOf (bufs.set i buf) = bufPool buf + poolOf bufs :=
          sumMap_set bufPool bufs i buf bold hbold hp0
        have hds : dmaOf (bufs.set i buf) = bufDma buf + dmaOf bufs :=
          sumMap_set bufDma bufs i buf bold hbold hd0
        simp only [MemState.mk.injEq]
        refine ⟨?_, ?_, ?_⟩
        · rw [hps, hL1, ms_add_sub_add_left]
        · rw [hds, hL2, ms_add_sub_add_left]
        · rcases hdom : o.iommu_domain with _ | _
          · rw [hdom] at hL3
            simp only [mapOf, Bool.false_eq_true, if_false] at hL3 ⊢
            rw [hL3]
            simp
          · rw [hdom] at hL3
            simp only [mapOf, if_true] at hL3 ⊢
            rw [hps, hL3, ms_add_sub_add_left]
      · intro j hj
        have hji : j ≠ i := fun e => hni (e ▸ hj)
        obtain ⟨b, hb, hbc⟩ := hcl j (List.mem_cons_of_mem i hj)
        exact ⟨b, by rw [List.getElem?_set_ne (Ne.symm hji)]; exact hb, hbc⟩

/-- Releasing a record array whose host addresses are all NULL leaves
the ledger untouched. -/
theorem freeFold_clean (dom : Bool) (st : MemState) (bufs : List RcbBuf)
    (h : ∀ b ∈ bufs, b.cpu = none) : (freeFold dom st bufs).1 = st := by
  rw [freeFold_fst]
  have hp : poolOf bufs = 0 := by
    refine List.sum_eq_zero fun x hx => ?_
    obtain ⟨b, hb, rfl⟩ := List.mem_map.mp hx
    simp [bufPool, h b hb]
  have hd : dmaOf bufs = 0 := by
    refine List.sum_eq_zero fun x hx => ?_
    obtain ⟨b, hb, rfl⟩ := List.mem_map.mp hx
    simp [bufDma, h b hb]
  cases st
  simp [hp, hd, mapOf]

/-- The release trace depends only on the record array, not on the
starting ledger. -/
theorem freeFold_snd_indep (dom : Bool) :
    ∀ (bufs : List RcbBuf) (st st2 : MemState),
      (freeFold dom st bufs).2 = (freeFold dom st2 bufs).2 := by
  intro bufs
  induction bufs with
  | nil => intro st st2; rfl
  | cons b rest ih =>
    intro st st2
    rcases hcpu : b.cpu with _ | c
    · simp only [freeFold, hcpu]
      exact ih st st2
    · rcases htype : b.type with _ | _ <;>
        simp only [freeFold, hcpu, htype] <;>
        rw [ih]

/-- Releasing an all-NULL record array performs no external release
calls. -/
theorem freeFold_snd_clean (dom : Bool) :
    ∀ (bufs : List RcbBuf) (st : MemState),
      (∀ b ∈ bufs, b.cpu = none) → (freeFold dom st bufs).2 = [] := by
  intro bufs
  induction bufs with
  | nil => intro st _; rfl
  | cons b rest ih =>
    intro st h
    have hb : b.cpu = none := h b (List.mem_cons_self b rest)
    simp only [freeFold, hb]
    exact ih st fun x hx => h x (List.mem_cons_of_mem b hx)

/-- Every record of the memset-plus-clean starting array has a NULL
host address. -/
theorem bufs0_clean (ctx : Ctx) (hclean : ∀ b ∈ ctx.rcb_bufs, b.cpu = none) :
    ∀ b ∈ ctx.rcb_bufs.set 0 zeroBuf, b.cpu = none := by
  intro b hb
  rcases List.mem_or_eq_of_mem_set hb with h | h
  · exact hclean b h
  · subst h; rfl

/-- C1: starting from a session whose 10 scratch records are all
unallocated (the decode-start state), if any kind's allocation fails
then the call returns -ENOMEM and the memory ledger is exactly restored:
every record allocated by this call has been released again, so the
session holds zero scratch allocations. -/
theorem C1_allocate_rcb_rollback (o : AllocOracle) (st : MemState)
    (ctx : Ctx) (hlen : ctx.rcb_bufs.length = RKVDEC2_RCB_COUNT)
    (hclean : ∀ b ∈ ctx.rcb_bufs, b.cpu = none)
    (hfail : (rkvdec2_allocate_rcb o st ctx).1 ≠ 0) :
    (rkvdec2_allocate_rcb o st ctx).1 = -ENOMEM ∧
    (rkvdec2_allocate_rcb o st ctx).2.1 = st := by
  have hlen0 : (ctx.rcb_bufs.set 0 zeroBuf).length = RKVDEC2_RCB_COUNT := by
    rw [List.length_set]; exact hlen
  have hcl := bufs0_clean ctx hclean
  have hcl0 : ∀ j ∈ List.range RKVDEC2_RCB_COUNT,
      ∃ b, (ctx.rcb_bufs.set 0 zeroBuf)[j]? = some b ∧ b.cpu = none := by
    intro j hj
    have hjlt : j < (ctx.rcb_bufs.set 0 zeroBuf).length := by
      rw [hlen0]; exact List.mem_range.mp hj
    refine ⟨(ctx.rcb_bufs.set 0 zeroBuf)[j], List.getElem?_eq_getElem hjlt, ?_⟩
    exact hcl _ (List.getElem_mem hjlt)
  have key := allocGo_free_inv o ctx.decoded_fmt.width ctx.decoded_fmt.height
    (List.range RKVDEC2_RCB_COUNT) st (ctx.rcb_bufs.set 0 zeroBuf) []
    (List.nodup_range _) hcl0
  have hbase := freeFold_clean o.iommu_domain st (ctx.rcb_bufs.set 0 zeroBuf)
    hcl
  rcases hgo : allocGo o ctx.decoded_fmt.width ctx.decoded_fmt.height
      (List.range RKVDEC2_RCB_COUNT) st (ctx.rcb_bufs.set 0 zeroBuf) [] with
    ⟨st', bufs', ok, evs⟩
  rw [hgo] at key
  cases ok with
  | true =>
    exfalso
    apply hfail
    simp only [rkvdec2_allocate_rcb, hgo]
  | false =>
    simp only [rkvdec2_allocate_rcb, hgo, rkvdec2_free_rcb]
    exact ⟨trivial, key.trans hbase⟩

/-- An oracle with no pool where system memory is exhausted from the
fourth scratch kind on. -/
def oraclePartial : AllocOracle :=
  ⟨false, false, fun _ _ => none, fun _ => false,
   fun i _ => if i < 3 then some (4096 * (i + 1), i) else none⟩

/-- C1 witness: the concrete rollback at the fourth kind. -/
theorem C1_allocate_rcb_rollback_witness :
    (rkvdec2_allocate_rcb oraclePartial stEmpty ctxOpen).1 = -ENOMEM ∧
    (rkvdec2_allocate_rcb oraclePartial stEmpty ctxOpen).2.1 = stEmpty :=
  C1_allocate_rcb_rollback oraclePartial stEmpty ctxOpen (by decide)
    (by decide) (by decide)

/-- C9: starting the capture queue performs neither allocation nor hook
and succeeds; starting the output queue first allocates the scratch set
and aborts with exactly the allocation result on failure; if allocation
succeeds (from the decode-start all-unallocated state) but the
descriptor's start hook fails, the whole scratch set is released again
(ledger restored) before the hook's error is returned. -/
theorem C9_start_streaming (o : AllocOracle) (hook : Option Int)
    (st : MemState) (ctx : Ctx) :
    rkvdec2_start_streaming o hook st ctx QueueType.capture =
      (0, st, ctx, []) ∧
    ((rkvdec2_allocate_rcb o st ctx).1 ≠ 0 →
      rkvdec2_start_streaming o hook st ctx QueueType.output =
        rkvdec2_allocate_rcb o st ctx) ∧
    (∀ r, hook = some r → r ≠ 0 →
      ctx.rcb_bufs.length = RKVDEC2_RCB_COUNT →
      (∀ b ∈ ctx.rcb_bufs, b.cpu = none) →
      (rkvdec2_allocate_rcb o st ctx).1 = 0 →
      (rkvdec2_start_streaming o hook st ctx QueueType.output).1 = r ∧
      (rkvdec2_start_streaming o hook st ctx QueueType.output).2.1 = st) := by
  refine ⟨rfl, ?_, ?_⟩
  · intro hfail
    simp only [rkvdec2_start_streaming, if_pos hfail]
  · intro r hr hr0 hlen hclean hok
    subst hr
    have hlen0 : (ctx.rcb_bufs.set 0 zeroBuf).length = RKVDEC2_RCB_COUNT := by
      rw [List.length_set]; exact hlen
    have hcl := bufs0_clean ctx hclean
    have hcl0 : ∀ j ∈ List.range RKVDEC2_RCB_COUNT,
        ∃ b, (ctx.rcb_bufs.set 0 zeroBuf)[j]? = some b ∧ b.cpu = none := by
      intro j hj
      have hjlt : j < (ctx.rcb_bufs.set 0 zeroBuf).length := by
        rw [hlen0]; exact List.mem_range.mp hj
      refine ⟨(ctx.rcb_bufs.set 0 zeroBuf)[j],
        List.getElem?_eq_getElem hjlt, ?_⟩
      exact hcl _ (List.getElem_mem hjlt)
    have key := allocGo_free_inv o ctx.decoded_fmt.width
      ctx.decoded_fmt.height (List.range RKVDEC2_RCB_COUNT) st
      (ctx.rcb_bufs.set 0 zeroBuf) [] (List.nodup_range _) hcl0
    have hbase := freeFold_clean o.iommu_domain st
      (ctx.rcb_bufs.set 0 zeroBuf) hcl
    rcases hgo : allocGo o ctx.decoded_fmt.width ctx.decoded_fmt.height
        (List.range RKVDEC2_RCB_COUNT) st (ctx.rcb_bufs.set 0 zeroBuf) [] with
      ⟨st', bufs', ok, evs⟩
    rw [hgo] at key
    cases ok with
    | false =>
      exfalso
      have : (rkvdec2_allocate_rcb o st ctx).1 = -ENOMEM := by
        simp only [rkvdec2_allocate_rcb, hgo]
      rw [hok] at this
      exact absurd this.symm (by decide)
    | true =>
      have halloc : rkvdec2_allocate_rcb o st ctx =
          (0, st', { ctx with rcb_bufs := bufs' }, evs) := by
        simp only [rkvdec2_allocate_rcb, hgo]
      simp only [rkvdec2_start_streaming, halloc, rkvdec2_free_rcb]
      simp only [ne_eq, not_true_eq_false, if_false, hr0, ite_false,
        reduceIte]
      exact ⟨trivial, key.trans hbase⟩

/-- An oracle without a pool whose system-memory allocator always
succeeds. -/
def oracleDmaAll : AllocOracle :=
  ⟨false, false, fun _ _ => none, fun _ => false,
   fun i _ => some (8192 + 4096 * i, i)⟩

/-- C9 witness: a failing start hook after a fully successful
allocation releases everything again. -/
theorem C9_start_streaming_witness :
    (rkvdec2_start_streaming oracleDmaAll (some (-5)) stEmpty ctxOpen
      QueueType.output).1 = -5 ∧
    (rkvdec2_start_streaming oracleDmaAll (some (-5)) stEmpty ctxOpen
      QueueType.output).2.1 = stEmpty :=
  (C9_start_streaming oracleDmaAll (some (-5)) stEmpty ctxOpen).2.2 (-5) rfl
    (by decide) (by decide) (by decide) (by decide)

/-- A session holding one allocated system-memory scratch record. -/
def ctxOneDma : Ctx :=
  { ctxOpen with rcb_bufs :=
      ⟨some 4096, 4097, 64, AllocType.dma, true⟩ :: List.replicate 9 zeroBuf }

/-- The matching ledger: that one allocation is live. -/
def stOneDma : MemState := ⟨0, {(4096, 64)}, 0⟩

/-- C2 counterexample: after one release call the first record's host
address is still non-NULL (the code never clears ctx->rcb_bufs), and a
second consecutive call is not a no-op: it performs the same external
release again (a double free). -/
theorem C2_free_rcb_counterexample :
    ((rkvdec2_free_rcb false stOneDma ctxOneDma).2.1.rcb_bufs.getD 0
      zeroBuf).cpu ≠ none ∧
    (rkvdec2_free_rcb false (rkvdec2_free_rcb false stOneDma ctxOneDma).1
      (rkvdec2_free_rcb false stOneDma ctxOneDma).2.1).2.2 ≠ [] := by
  exact ⟨by decide, by decide⟩

/-- C2 (amended): one release call frees each record with a non-NULL
host address via its recorded strategy (ledger = old ledger minus the
records' footprints) and is safe and a no-op on a fully (or partially,
for the NULL entries) empty record set; but it never clears the
records, so the session keeps the stale host addresses and a second
consecutive call repeats exactly the same release operations instead of
being a no-op. -/
theorem C2_free_rcb_amended (dom : Bool) (st : MemState) (ctx : Ctx) :
    (rkvdec2_free_rcb dom st ctx).2.1 = ctx ∧
    (rkvdec2_free_rcb dom st ctx).1 =
      ⟨st.poolLive - poolOf ctx.rcb_bufs, st.dmaLive - dmaOf ctx.rcb_bufs,
       st.mapped - mapOf dom ctx.rcb_bufs⟩ ∧
    ((∀ b ∈ ctx.rcb_bufs, b.cpu = none) →
      (rkvdec2_free_rcb dom st ctx).1 = st ∧
      (rkvdec2_free_rcb dom st ctx).2.2 = []) ∧
    (rkvdec2_free_rcb dom (rkvdec2_free_rcb dom st ctx).1
        (rkvdec2_free_rcb dom st ctx).2.1).2.2 =
      (rkvdec2_free_rcb dom st ctx).2.2 := by
  refine ⟨rfl, freeFold_fst dom ctx.rcb_bufs st, ?_, ?_⟩
  · intro h
    exact ⟨freeFold_clean dom st ctx.rcb_bufs h,
      freeFold_snd_clean dom ctx.rcb_bufs st h⟩
  · exact freeFold_snd_indep dom ctx.rcb_bufs _ st

/-- C2 witness: on a fully empty record set the release call is a
no-op with an empty release trace. -/
theorem C2_free_rcb_amended_witness :
    (rkvdec2_free_rcb false stEmpty ctxOpen).1 = stEmpty ∧
    (rkvdec2_free_rcb false stEmpty ctxOpen).2.2 = [] :=
  (C2_free_rcb_amended false stEmpty ctxOpen).2.2.1 (by decide)

end Rkvdec2
